import Mathlib

/-!
Verification of the CogniCode streaming pipeline.

This file gives a shallow embedding of the capture/classify/pump side
(`src/agents/agent_server.py`: `StreamCapture`, `flush_current`,
`process_line`, `get_agent_response_stream`) and of the decode/accumulate
side (`src/agents/agent_ui.py`: the frame-decoding loop of
`_stream_from_backend` and the event dispatch of `stream_agent_response`),
and proves or refutes the frozen claims about them.

Text is modelled as `List Char` so that every operation is a computable
function and inductive proofs over characters are direct.
-/

namespace CogniCode

/-- Text, modelled as a list of characters. -/
abbrev Str := List Char

/-- Converts a Lean string literal into the `List Char` text model. -/
def str (s : String) : Str := s.data

/-- Python `str.strip` whitespace class (space, tab, newline, CR, VT, FF). -/
def isWS (c : Char) : Bool :=
  c = ' ' || c = '\t' || c = '\n' || c = '\r' || c = '\x0b' || c = '\x0c'

/-- Python `s.strip()`: remove leading and trailing whitespace. -/
def strip (s : Str) : Str :=
  ((s.dropWhile isWS).reverse.dropWhile isWS).reverse

/-- Python `pat in s`: substring test. -/
def hasSubstr (pat : Str) : Str → Bool
  | [] => pat.isEmpty
  | c :: rest => pat.isPrefixOf (c :: rest) || hasSubstr pat rest

/- ANSI escape stripping: the `ansi_escape` regular expression of
   `agent_server.py` line 93 and `ansi_escape.sub` applied with an empty
   replacement. The single-character branch class covers code points
   0x40-0x5A together with 0x5C-0x5F; the CSI branch is an opening square
   bracket, then parameter bytes 0x30-0x3F, intermediate bytes 0x20-0x2F
   and one final byte 0x40-0x7E. The three CSI classes are disjoint, so
   the greedy match needs no backtracking. -/

/-- Single-character escape class of the ANSI regular expression. -/
def isSingleEsc (c : Char) : Bool :=
  (0x40 ≤ c.toNat && c.toNat ≤ 0x5A) || (0x5C ≤ c.toNat && c.toNat ≤ 0x5F)

/-- CSI parameter byte class, code points 0x30-0x3F. -/
def isParamByte (c : Char) : Bool := 0x30 ≤ c.toNat && c.toNat ≤ 0x3F

/-- CSI intermediate byte class, code points 0x20-0x2F. -/
def isInterByte (c : Char) : Bool := 0x20 ≤ c.toNat && c.toNat ≤ 0x2F

/-- CSI final byte class, code points 0x40-0x7E. -/
def isFinalByte (c : Char) : Bool := 0x40 ≤ c.toNat && c.toNat ≤ 0x7E

/-- Tries to match the ANSI escape regex at the head of `s`; on success
returns the remainder after the matched escape sequence. -/
def ansiMatch : Str → Option Str
  | '\x1b' :: c :: rest =>
    if isSingleEsc c then some rest
    else if c = '[' then
      let rest1 := rest.dropWhile isParamByte
      let rest2 := rest1.dropWhile isInterByte
      match rest2 with
      | f :: r => if isFinalByte f then some r else none
      | [] => none
    else none
  | _ => none

/-- Fuel-driven worker for `ansi_escape_sub`; every step consumes at least
one character, so fuel equal to the length of the input is always enough. -/
def ansiSubFuel : Nat → Str → Str
  | 0, s => s
  | fuel + 1, s =>
    match ansiMatch s with
    | some r => ansiSubFuel fuel r
    | none =>
      match s with
      | [] => []
      | c :: rest => c :: ansiSubFuel fuel rest

/-- Model of the `ansi_escape.sub` call with empty replacement: delete
every ANSI escape sequence, scanning
left to right. -/
def ansi_escape_sub (s : Str) : Str := ansiSubFuel s.length s

/-- The semantic tags of the wire protocol
(`thought`, `action`, `action_input`, `observation`, `final_answer_end`,
`error`, `stream_end`). -/
inductive Tag where
  | thought
  | action
  | action_input
  | observation
  | final_answer_end
  | error
  | stream_end
  deriving DecidableEq, Repr

/-- One semantic event of the stream: the payload of one `data:` frame.
`stream_end` events carry empty content. -/
structure Event where
  type : Tag
  content : Str
  deriving DecidableEq, Repr

/-- The classifier state of `get_agent_response_stream`: the `capturing`
flag and the `current_tag` / `current_lines` block accumulator. -/
structure CState where
  capturing : Bool
  current_tag : Option Tag
  current_lines : List Str
  deriving DecidableEq, Repr

/-- The classifier's initial state (`capturing = False`, `current_tag = None`,
`current_lines = []`, `agent_server.py` lines 129-131). -/
def initCState : CState := ⟨false, none, []⟩

/-- Model of `flush_current` (`agent_server.py` lines 133-139): if a tag is set and
lines were accumulated, join them with a newline, strip, and if nonempty
emit one event whose content has ANSI escapes removed. The classifier
state is NOT modified by the flush. -/
def flush_current (s : CState) : Option Event :=
  match s.current_tag with
  | none => none
  | some t =>
    if s.current_lines.isEmpty then none
    else if (strip (List.intercalate (str "\n") s.current_lines)).isEmpty then none
    else some ⟨t, ansi_escape_sub (strip (List.intercalate (str "\n") s.current_lines))⟩

/-- The tag-detection chain of `process_line` (`agent_server.py` lines
167-193), checked in source order; returns the mapped tag and the
stripped remainder of the line after the matched marker. -/
def tagSplit (l : Str) : Option (Tag × Str) :=
  if (str "Thought:").isPrefixOf l then some (Tag.thought, strip (l.drop 8))
  else if (str "Action:").isPrefixOf l then some (Tag.action, strip (l.drop 7))
  else if (str "Action Input:").isPrefixOf l then some (Tag.action_input, strip (l.drop 13))
  else if (str "Observation:").isPrefixOf l then some (Tag.observation, strip (l.drop 12))
  else if (str "STDOUT:").isPrefixOf l then some (Tag.observation, strip (l.drop 7))
  else if (str "STDERR:").isPrefixOf l then some (Tag.observation, strip (l.drop 7))
  else if (str "CONTEXT:").isPrefixOf l then some (Tag.observation, strip (l.drop 8))
  else if (str "Final Answer:").isPrefixOf l then some (Tag.final_answer_end, strip (l.drop 13))
  else none

/-- The body of `process_line` after its early returns for blank lines
(`agent_server.py` lines 152-204), applied to the already stripped and
ANSI-cleaned line: handle the chain boundaries, and while capturing either
start a new tagged block (flushing the previous one) or append a
continuation line. -/
def process_line_core (s : CState) (l : Str) : CState × Option Event :=
  if hasSubstr (str "Entering new") l && hasSubstr (str "chain") l then
    ({ s with capturing := true }, none)
  else if hasSubstr (str "Finished chain.") l && s.capturing then
    ({ s with capturing := false }, flush_current s)
  else if !s.capturing then (s, none)
  else
    match tagSplit l with
    | some (t, content) =>
      ({ capturing := s.capturing, current_tag := some t,
         current_lines := if content.isEmpty then [] else [content] },
       flush_current s)
    | none => ({ s with current_lines := s.current_lines ++ [l] }, none)

/-- Model of `process_line` (`agent_server.py` lines 141-204): strip the line, drop
it if the result is empty, remove ANSI escapes, then run the transition
rules. Returns the new classifier state and the event to yield, if any. -/
def process_line (s : CState) (line : Str) : CState × Option Event :=
  if (strip line).isEmpty then (s, none)
  else process_line_core s (ansi_escape_sub (strip line))

/-- Runs the classifier over a list of lines, collecting the emitted events
in order, together with the final classifier state. -/
def run_classifier (s : CState) : List Str → List Event × CState
  | [] => ([], s)
  | l :: ls =>
    let p := process_line s l
    let r := run_classifier p.1 ls
    (p.2.toList ++ r.1, r.2)

/-- The event stream of `get_agent_response_stream`
(`agent_server.py` lines 206-261), as a function of the ordered lines the
producer wrote to the queue and of the producer's outcome (`none` for
normal completion, `some e` when `run_agent` stored an exception rendered
as `e`). All queued lines are drained through `process_line`; then, if the
producer failed, the stored exception is re-raised and the `except` branch
yields one `error` event and `stream_end`; otherwise the last block is
flushed and `stream_end` is yielded. -/
def get_agent_response_stream (lines : List Str) (err : Option Str) : List Event :=
  let r := run_classifier initCState lines
  match err with
  | some e =>
    r.1 ++ [⟨Tag.error, str "Agent execution failed: " ++ e⟩, ⟨Tag.stream_end, []⟩]
  | none => r.1 ++ (flush_current r.2).toList ++ [⟨Tag.stream_end, []⟩]

/-- An internal failure of the draining logic itself: the body of the `try`
raises after `j` events have been yielded, and the `except` branch of
`get_agent_response_stream` yields one `error` event followed by
`stream_end`. The events already yielded form a prefix of the normal-path
events (everything before the terminal frame). -/
def get_agent_response_stream_crash (lines : List Str) (j : Nat) (e : Str) : List Event :=
  ((get_agent_response_stream lines none).dropLast.take j)
    ++ [⟨Tag.error, str "Agent execution failed: " ++ e⟩, ⟨Tag.stream_end, []⟩]

/-- The input line sequence of Scenario A. -/
def scenarioA : List Str :=
  [str "Entering new X chain...",
   str "Thought: check files",
   str "Action: list_files",
   str "Action Input: .",
   str "Observation: a.py",
   str "Finished chain."]

/-- A producer trace that dies mid-chain: the `thought` block has been
flushed (by the arrival of the `Action:` line) and an `action` block is
still pending in the classifier when the producer raises. -/
def scenarioB : List Str :=
  [str "Entering new X chain...",
   str "Thought: plan",
   str "Action: read_file"]

/-- The classifier never holds `stream_end` or `error` as its current tag:
those tags are produced only by the pump itself, never by `tagSplit`. -/
def stateOK (s : CState) : Prop :=
  ∀ t, s.current_tag = some t → t ≠ Tag.stream_end ∧ t ≠ Tag.error

lemma initCState_ok : stateOK initCState := by
  intro t h
  simp [initCState] at h

lemma tagSplit_ok {l : Str} {t : Tag} {c : Str} (h : tagSplit l = some (t, c)) :
    t ≠ Tag.stream_end ∧ t ≠ Tag.error := by
  unfold tagSplit at h
  split_ifs at h <;> simp only [Option.some.injEq, Prod.mk.injEq] at h
  all_goals obtain ⟨h1, -⟩ := h
  all_goals subst h1
  all_goals exact ⟨by decide, by decide⟩

lemma flush_ok {s : CState} {ev : Event} (hs : stateOK s)
    (h : flush_current s = some ev) :
    ev.type ≠ Tag.stream_end ∧ ev.type ≠ Tag.error := by
  unfold flush_current at h
  cases htag : s.current_tag with
  | none => rw [htag] at h; cases h
  | some t =>
    rw [htag] at h
    dsimp only at h
    by_cases h1 : s.current_lines.isEmpty = true
    · rw [if_pos h1] at h; cases h
    · rw [if_neg h1] at h
      by_cases h2 : (strip (List.intercalate (str "\n") s.current_lines)).isEmpty = true
      · rw [if_pos h2] at h; cases h
      · rw [if_neg h2] at h
        simp only [Option.some.injEq] at h
        subst h
        exact hs t htag

lemma process_line_core_ok {s : CState} (l : Str) (hs : stateOK s) :
    stateOK (process_line_core s l).1 ∧
      ∀ ev, (process_line_core s l).2 = some ev →
        ev.type ≠ Tag.stream_end ∧ ev.type ≠ Tag.error := by
  unfold process_line_core
  by_cases h2 : (hasSubstr (str "Entering new") l && hasSubstr (str "chain") l) = true
  · rw [if_pos h2]
    exact ⟨fun t ht => hs t ht, fun ev hev => by cases hev⟩
  · rw [if_neg h2]
    by_cases h3 : (hasSubstr (str "Finished chain.") l && s.capturing) = true
    · rw [if_pos h3]
      exact ⟨fun t ht => hs t ht, fun ev hev => flush_ok hs hev⟩
    · rw [if_neg h3]
      by_cases h4 : (!s.capturing) = true
      · rw [if_pos h4]
        exact ⟨hs, fun ev hev => by cases hev⟩
      · rw [if_neg h4]
        cases hts : tagSplit l with
        | none =>
          dsimp only
          exact ⟨fun t ht => hs t ht, fun ev hev => by cases hev⟩
        | some p =>
          obtain ⟨t, c⟩ := p
          dsimp only
          constructor
          · intro t' ht'
            simp only [Option.some.injEq] at ht'
            subst ht'
            exact tagSplit_ok hts
          · exact fun ev hev => flush_ok hs hev

lemma process_line_ok {s : CState} (l : Str) (hs : stateOK s) :
    stateOK (process_line s l).1 ∧
      ∀ ev, (process_line s l).2 = some ev →
        ev.type ≠ Tag.stream_end ∧ ev.type ≠ Tag.error := by
  unfold process_line
  by_cases h1 : (strip l).isEmpty = true
  · rw [if_pos h1]
    exact ⟨hs, fun ev hev => by cases hev⟩
  · rw [if_neg h1]
    exact process_line_core_ok _ hs

lemma run_classifier_ok :
    ∀ (lines : List Str) (s : CState), stateOK s →
      (∀ ev ∈ (run_classifier s lines).1,
        ev.type ≠ Tag.stream_end ∧ ev.type ≠ Tag.error) ∧
      stateOK (run_classifier s lines).2 := by
  intro lines
  induction lines with
  | nil => exact fun s hs => ⟨(fun ev hev => by cases hev), hs⟩
  | cons l ls ih =>
    intro s hs
    obtain ⟨hstep, hemit⟩ := process_line_ok (s := s) l hs
    obtain ⟨ihev, ihst⟩ := ih (process_line s l).1 hstep
    refine ⟨?_, ihst⟩
    intro ev hmem
    simp only [run_classifier, List.mem_append] at hmem
    rcases hmem with hmem | hmem
    · cases ho : (process_line s l).2 with
      | none => rw [ho] at hmem; cases hmem
      | some e0 =>
        rw [ho] at hmem
        simp only [Option.toList_some, List.mem_singleton] at hmem
        subst hmem
        exact hemit _ ho
    · exact ihev ev hmem

lemma countP_end_zero {L : List Event}
    (h : ∀ ev ∈ L, ev.type ≠ Tag.stream_end) :
    L.countP (fun ev => decide (ev.type = Tag.stream_end)) = 0 :=
  List.countP_eq_zero.mpr fun ev hev => by simpa using h ev hev

/-- Appending one terminal `stream_end` event to a stream that contains
none yields a stream with exactly one, in last position. -/
lemma one_end (L : List Event) (hL : ∀ ev ∈ L, ev.type ≠ Tag.stream_end) :
    (L ++ [(⟨Tag.stream_end, []⟩ : Event)]).countP
        (fun ev => decide (ev.type = Tag.stream_end)) = 1
      ∧ (L ++ [(⟨Tag.stream_end, []⟩ : Event)]).getLast? =
          some (⟨Tag.stream_end, []⟩ : Event) := by
  constructor
  · rw [List.countP_append, countP_end_zero hL]
    rfl
  · exact List.getLast?_concat _

lemma normal_shape (lines : List Str) :
    get_agent_response_stream lines none =
      ((run_classifier initCState lines).1
        ++ (flush_current (run_classifier initCState lines).2).toList)
      ++ [⟨Tag.stream_end, []⟩] := by
  simp [get_agent_response_stream, List.append_assoc]

lemma err_shape (lines : List Str) (e : Str) :
    get_agent_response_stream lines (some e) =
      ((run_classifier initCState lines).1
        ++ [(⟨Tag.error, str "Agent execution failed: " ++ e⟩ : Event)])
      ++ [(⟨Tag.stream_end, []⟩ : Event)] := by
  simp [get_agent_response_stream, List.append_assoc]

lemma crash_shape (lines : List Str) (j : Nat) (e : Str) :
    get_agent_response_stream_crash lines j e =
      ((get_agent_response_stream lines none).dropLast.take j
        ++ [(⟨Tag.error, str "Agent execution failed: " ++ e⟩ : Event)])
      ++ [(⟨Tag.stream_end, []⟩ : Event)] := by
  simp [get_agent_response_stream_crash, List.append_assoc]

/-- Every event of the normal path before the terminal frame (classifier
emissions followed by the final flush) has a tag other than `stream_end`
and `error`. -/
lemma normal_prefix_ok (lines : List Str) :
    ∀ ev ∈ (run_classifier initCState lines).1
        ++ (flush_current (run_classifier initCState lines).2).toList,
      ev.type ≠ Tag.stream_end ∧ ev.type ≠ Tag.error := by
  intro ev hmem
  rcases List.mem_append.mp hmem with h | h
  · exact (run_classifier_ok lines initCState initCState_ok).1 ev h
  · cases ho : flush_current (run_classifier initCState lines).2 with
    | none => rw [ho] at h; cases h
    | some e0 =>
      rw [ho] at h
      simp only [Option.toList_some, List.mem_singleton] at h
      subst h
      exact flush_ok (run_classifier_ok lines initCState initCState_ok).2 ho

/-- C3: for every session, on every code path — normal completion,
producer failure, and internal failure of the draining logic — the stream
emitted by `get_agent_response_stream` contains exactly one `stream_end`
event, and that event is the last element of the stream. -/
theorem C3_stream_end_exactly_once_last :
    ∀ (lines : List Str) (err : Option Str) (j : Nat) (e : Str),
      ((get_agent_response_stream lines err).countP
          (fun ev => decide (ev.type = Tag.stream_end)) = 1
        ∧ (get_agent_response_stream lines err).getLast? =
            some (⟨Tag.stream_end, []⟩ : Event))
      ∧ ((get_agent_response_stream_crash lines j e).countP
          (fun ev => decide (ev.type = Tag.stream_end)) = 1
        ∧ (get_agent_response_stream_crash lines j e).getLast? =
            some (⟨Tag.stream_end, []⟩ : Event)) := by
  intro lines err j e
  constructor
  · cases err with
    | none =>
      rw [normal_shape]
      exact one_end _ fun ev h => (normal_prefix_ok lines ev h).1
    | some e' =>
      rw [err_shape]
      refine one_end _ fun ev h => ?_
      rcases List.mem_append.mp h with h | h
      · exact ((run_classifier_ok lines initCState initCState_ok).1 ev h).1
      · simp only [List.mem_singleton] at h
        subst h
        simp
  · rw [crash_shape]
    refine one_end _ fun ev h => ?_
    rcases List.mem_append.mp h with h | h
    · have hsub : ev ∈ (get_agent_response_stream lines none).dropLast :=
        List.take_subset _ _ h
      rw [normal_shape, List.dropLast_concat] at hsub
      exact (normal_prefix_ok lines ev hsub).1
    · simp only [List.mem_singleton] at h
      subst h
      simp

/-- The observable event stream of Scenario A, evaluated on the code:
the final `observation` block is emitted twice — once when
`Finished chain.` flushes it, and a second time by the final flush after
the drain loop, because `flush_current` never clears
`current_tag`/`current_lines`. The claimed five-event stream is actually
a six-event stream with a duplicated `observation("a.py")`. -/
theorem C1_scenarioA_duplicate_eval :
    get_agent_response_stream scenarioA none =
      [⟨Tag.thought, str "check files"⟩,
       ⟨Tag.action, str "list_files"⟩,
       ⟨Tag.action_input, str "."⟩,
       ⟨Tag.observation, str "a.py"⟩,
       ⟨Tag.observation, str "a.py"⟩,
       ⟨Tag.stream_end, []⟩] := by decide

/-- The `observation` block of Scenario A, accumulated once under
`current_lines`, appears in two distinct emitted events of the stream:
block content is flushed into two Events, not exactly one. -/
theorem C2_block_double_emission :
    (get_agent_response_stream scenarioA none).count
      ⟨Tag.observation, str "a.py"⟩ = 2 := by decide

/-- Processing an `Entering new ... chain` boundary line in the Idle state
switches `capturing` on and emits nothing, but leaves `current_tag` and
`current_lines` untouched instead of resetting them to empty: the stale
`observation` block of a finished session survives into the next one. -/
theorem C5_entering_new_no_reset :
    process_line ⟨false, some Tag.observation, [str "a.py"]⟩
        (str "Entering new X chain...") =
      (⟨true, some Tag.observation, [str "a.py"]⟩, none) := by decide

lemma countP_err_zero {L : List Event}
    (h : ∀ ev ∈ L, ev.type ≠ Tag.error) :
    L.countP (fun ev => decide (ev.type = Tag.error)) = 0 :=
  List.countP_eq_zero.mpr fun ev hev => by simpa using h ev hev

/-- In Scenario B the producer dies while an `action` block is still
pending in the classifier, and that block is flushable (its flush would
emit `action("read_file")`): yet the emitted stream contains no such
event — the error path of `get_agent_response_stream` raises before the
final flush and its `except` branch performs no flush at all. -/
theorem C4_no_flush_on_error_counterexample :
    flush_current (run_classifier initCState scenarioB).2 =
        some ⟨Tag.action, str "read_file"⟩
      ∧ (⟨Tag.action, str "read_file"⟩ : Event) ∉
          get_agent_response_stream scenarioB (some (str "boom")) := by decide

/-- C4 (amended): if the producer raises a failure, the stream is exactly
the classifier events for the drained lines, then one `error` event
carrying a human-readable description, then `stream_end`; the
still-pending classifier block is NOT flushed on this path (its content
is discarded). In Scenario B the output is `thought("plan")`,
`error("Agent execution failed: boom")`, `stream_end()`. -/
theorem C4_error_path_events :
    (∀ (lines : List Str) (e : Str),
      get_agent_response_stream lines (some e) =
          (run_classifier initCState lines).1
            ++ [(⟨Tag.error, str "Agent execution failed: " ++ e⟩ : Event),
                ⟨Tag.stream_end, []⟩]
        ∧ (get_agent_response_stream lines (some e)).countP
            (fun ev => decide (ev.type = Tag.error)) = 1)
    ∧ get_agent_response_stream scenarioB (some (str "boom")) =
        [⟨Tag.thought, str "plan"⟩,
         ⟨Tag.error, str "Agent execution failed: boom"⟩,
         ⟨Tag.stream_end, []⟩] := by
  constructor
  · intro lines e
    refine ⟨rfl, ?_⟩
    rw [err_shape, List.countP_append, List.countP_append,
      countP_err_zero
        (fun ev h => ((run_classifier_ok lines initCState initCState_ok).1 ev h).2)]
    rfl
  · decide

/-- Evaluation of `process_line_core` on the empty cleaned line: every substring test
and every tag marker test fails, so while capturing the empty string is
appended to `current_lines` as a continuation line, and while idle the
line is discarded. -/
lemma process_line_core_nil (s : CState) :
    process_line_core s [] =
      (if s.capturing then { s with current_lines := s.current_lines ++ [[]] }
       else s, none) := by
  cases s with
  | mk cap tag lines => cases cap <;> rfl

/-- A line consisting only of an ANSI escape sequence, processed while
capturing with a tag set, is NOT discarded without a state change: the
emptiness check of `process_line` runs before ANSI stripping, so the
line survives it and is appended to `current_lines` as an empty
continuation line. -/
theorem C6_ansi_only_line_counterexample :
    process_line ⟨true, some Tag.thought, [str "a"]⟩ ['\x1b', '[', '3', '1', 'm'] ≠
        (⟨true, some Tag.thought, [str "a"]⟩, none)
      ∧ process_line ⟨true, some Tag.thought, [str "a"]⟩ ['\x1b', '[', '3', '1', 'm'] =
        (⟨true, some Tag.thought, [str "a", []]⟩, none) := by decide

/-- C6 (amended): each incoming line is first stripped of surrounding
whitespace, and a line that is empty after whitespace stripping is
discarded unconditionally (no event, no state change) — but ANSI escape
stripping is applied only AFTER this emptiness check, so a line
consisting only of ANSI escape sequences is not discarded: it produces
no event, and while Idle it causes no state change, but while Capturing
it is appended to `current_lines` as an empty continuation line. -/
theorem C6_preprocessing_amended :
    ∀ (s : CState) (l : Str),
      ((strip l).isEmpty = true → process_line s l = (s, none))
      ∧ ((strip l).isEmpty = false →
          (ansi_escape_sub (strip l)).isEmpty = true →
          process_line s l =
            (if s.capturing
             then { s with current_lines := s.current_lines ++ [[]] }
             else s, none)) := by
  intro s l
  constructor
  · intro h1
    unfold process_line
    rw [if_pos h1]
  · intro h1 h2
    unfold process_line
    rw [if_neg (by simp [h1])]
    have hcl : ansi_escape_sub (strip l) = [] := by
      rwa [List.isEmpty_iff] at h2
    rw [hcl, process_line_core_nil]

/-- Witness for the amended C6 theorem at a concrete input: the line
made of the single ANSI colour escape, in the Capturing state with a
pending `thought` block, is appended as an empty continuation line. -/
theorem C6_preprocessing_amended_witness :
    process_line ⟨true, some Tag.thought, [str "a"]⟩ ['\x1b', '[', '3', '1', 'm'] =
      (⟨true, some Tag.thought, [str "a", []]⟩, none) := by
  have h := (C6_preprocessing_amended ⟨true, some Tag.thought, [str "a"]⟩
    ['\x1b', '[', '3', '1', 'm']).2 (by decide) (by decide)
  simpa using h

/- ------------------------------------------------------------------
   StreamCapture (`agent_server.py` lines 95-115): the line splitter.
   ------------------------------------------------------------------ -/

/-- The repeated `self.buffer.split('\n', 1)` loop of `StreamCapture.write`:
returns the complete (newline-terminated) lines of the text, in order,
and the residue after the last newline. -/
def splitNl : Str → List Str × Str
  | [] => ([], [])
  | c :: rest =>
    if c = '\n' then ([] :: (splitNl rest).1, (splitNl rest).2)
    else
      match splitNl rest with
      | ([], b) => ([], c :: b)
      | (l :: ls, b) => ((c :: l) :: ls, b)

/-- State of `StreamCapture`: the pending text after the last newline. -/
structure StreamCapture where
  buffer : Str
  deriving DecidableEq, Repr

/-- Model of `StreamCapture.write` (`agent_server.py` lines 102-112): append `s` to
the buffer, enqueue every complete line, keep the residue, and return
`len(s)`. Result: (lines put on the queue, new state, return value). -/
def StreamCapture.write (st : StreamCapture) (s : Str) :
    List Str × StreamCapture × Nat :=
  ((splitNl (st.buffer ++ s)).1, ⟨(splitNl (st.buffer ++ s)).2⟩, s.length)

/-- Model of `StreamCapture.flush` (`agent_server.py` lines 114-115): it only flushes
the underlying original stream: it enqueues nothing and keeps the
internal buffer unchanged. -/
def StreamCapture.flushCapture (st : StreamCapture) : StreamCapture × List Str :=
  (st, [])

/-- Runs a sequence of `write` calls, collecting all enqueued lines in
order and the return values. -/
def captureRun (st : StreamCapture) : List Str → StreamCapture × List Str × List Nat
  | [] => (st, [], [])
  | s :: ss =>
    let w := StreamCapture.write st s
    let r := captureRun w.2.1 ss
    (r.1, w.1 ++ r.2.1, w.2.2 :: r.2.2)

/-- Reassembles a split text: each complete line followed by its
terminating newline, then the residue. -/
def joinNlTerm (ls : List Str) : Str :=
  ls.foldr (fun l acc => l ++ '\n' :: acc) []

lemma splitNl_nil : splitNl [] = ([], []) := rfl

lemma splitNl_cons_nl (rest : Str) :
    splitNl ('\n' :: rest) = ([] :: (splitNl rest).1, (splitNl rest).2) := by
  simp [splitNl]

lemma splitNl_cons {c : Char} (rest : Str) (hc : c ≠ '\n') :
    splitNl (c :: rest) =
      (match splitNl rest with
       | ([], b) => ([], c :: b)
       | (l :: ls, b) => ((c :: l) :: ls, b)) := by
  simp [splitNl, hc]

/-- A newline-free text is all residue: no complete line is extracted. -/
lemma splitNl_no_nl_id {b : Str} (hb : '\n' ∉ b) : splitNl b = ([], b) := by
  induction b with
  | nil => rfl
  | cons c rest ih =>
    have hc : c ≠ '\n' := fun h => hb (h ▸ List.mem_cons_self c rest)
    have hrest : '\n' ∉ rest := fun h => hb (List.mem_cons_of_mem c h)
    rw [splitNl_cons rest hc, ih hrest]

/-- Prepending one newline-terminated, newline-free line pushes it onto
the extracted lines. -/
lemma splitNl_line_push {l : Str} (t : Str) (hl : '\n' ∉ l) :
    splitNl (l ++ '\n' :: t) = (l :: (splitNl t).1, (splitNl t).2) := by
  induction l with
  | nil => simpa using splitNl_cons_nl t
  | cons c l' ih =>
    have hc : c ≠ '\n' := fun h => hl (h ▸ List.mem_cons_self c l')
    have hl' : '\n' ∉ l' := fun h => hl (List.mem_cons_of_mem c h)
    rw [List.cons_append, splitNl_cons _ hc, ih hl']

lemma joinNlTerm_cons (x : Str) (xs : List Str) :
    joinNlTerm (x :: xs) = x ++ '\n' :: joinNlTerm xs := rfl

lemma joinNlTerm_append (xs ys : List Str) :
    joinNlTerm (xs ++ ys) = joinNlTerm xs ++ joinNlTerm ys := by
  induction xs with
  | nil => rfl
  | cons x xs' ih =>
    rw [List.cons_append, joinNlTerm_cons, joinNlTerm_cons, ih,
      List.append_assoc, List.cons_append]

/-- Function `splitNl` is uniquely determined by the reassembly equation together
with newline-freeness of the parts. -/
lemma splitNl_unique :
    ∀ (ls : List Str) (b : Str), (∀ l ∈ ls, '\n' ∉ l) → '\n' ∉ b →
      splitNl (joinNlTerm ls ++ b) = (ls, b) := by
  intro ls
  induction ls with
  | nil =>
    intro b _ hb
    simpa [joinNlTerm] using splitNl_no_nl_id hb
  | cons l ls' ih =>
    intro b hls hb
    have h1 : joinNlTerm (l :: ls') ++ b = l ++ '\n' :: (joinNlTerm ls' ++ b) := by
      simp [joinNlTerm]
    rw [h1, splitNl_line_push _ (hls l (List.mem_cons_self l ls')),
      ih b (fun x hx => hls x (List.mem_cons_of_mem l hx)) hb]

lemma splitNl_no_newline (s : Str) : '\n' ∉ (splitNl s).2 := by
  induction s with
  | nil => simp [splitNl]
  | cons c rest ih =>
    by_cases hc : c = '\n'
    · subst hc
      simpa [splitNl_cons_nl] using ih
    · rw [splitNl_cons rest hc]
      cases h' : splitNl rest with
      | mk ls b =>
        rw [h'] at ih
        cases ls with
        | nil =>
          simp only []
          intro hmem
          rcases List.mem_cons.mp hmem with h | h
          · exact hc h.symm
          · exact ih h
        | cons l ls' => simpa using ih

lemma splitNl_lines_no_newline (s : Str) :
    ∀ l ∈ (splitNl s).1, '\n' ∉ l := by
  induction s with
  | nil => simp [splitNl]
  | cons c rest ih =>
    by_cases hc : c = '\n'
    · subst hc
      rw [splitNl_cons_nl]
      intro l hl
      rcases List.mem_cons.mp hl with h | h
      · subst h; simp
      · exact ih l h
    · rw [splitNl_cons rest hc]
      cases h' : splitNl rest with
      | mk ls b =>
        rw [h'] at ih
        cases ls with
        | nil => simp
        | cons l0 ls' =>
          intro l hl
          rcases List.mem_cons.mp hl with h | h
          · subst h
            intro hmem
            rcases List.mem_cons.mp hmem with h | h
            · exact hc h.symm
            · exact ih l0 (List.mem_cons_self l0 ls') h
          · exact ih l (List.mem_cons_of_mem l0 h)

lemma splitNl_reconstruct (s : Str) :
    joinNlTerm (splitNl s).1 ++ (splitNl s).2 = s := by
  induction s with
  | nil => simp [splitNl, joinNlTerm]
  | cons c rest ih =>
    by_cases hc : c = '\n'
    · subst hc
      rw [splitNl_cons_nl]
      simpa [joinNlTerm] using ih
    · rw [splitNl_cons rest hc]
      cases h' : splitNl rest with
      | mk ls b =>
        rw [h'] at ih
        cases ls with
        | nil =>
          simp [joinNlTerm] at ih ⊢
          exact ih
        | cons l ls' =>
          simp [joinNlTerm] at ih ⊢
          exact ih

/-- Splitting distributes over concatenation: the lines of `a ++ b` are
the lines of `a` followed by the lines of `a`'s residue glued to `b`. -/
lemma splitNl_append (a b : Str) :
    splitNl (a ++ b) =
      ((splitNl a).1 ++ (splitNl ((splitNl a).2 ++ b)).1,
       (splitNl ((splitNl a).2 ++ b)).2) := by
  have key :
      a ++ b =
        joinNlTerm ((splitNl a).1 ++ (splitNl ((splitNl a).2 ++ b)).1)
          ++ (splitNl ((splitNl a).2 ++ b)).2 := by
    rw [joinNlTerm_append, List.append_assoc, splitNl_reconstruct,
      ← List.append_assoc, splitNl_reconstruct]
  rw [key]
  refine splitNl_unique _ _ ?_ (splitNl_no_newline _)
  intro l hl
  rcases List.mem_append.mp hl with h | h
  · exact splitNl_lines_no_newline a l h
  · exact splitNl_lines_no_newline _ l h

lemma captureRun_spec (ws : List Str) :
    ∀ β : Str, '\n' ∉ β →
      captureRun ⟨β⟩ ws =
        (⟨(splitNl (β ++ ws.flatten)).2⟩,
         (splitNl (β ++ ws.flatten)).1,
         ws.map List.length) := by
  induction ws with
  | nil =>
    intro β hβ
    simp [captureRun, splitNl_no_nl_id hβ]
  | cons s ss ih =>
    intro β hβ
    simp only [captureRun, StreamCapture.write, List.flatten_cons]
    rw [ih ((splitNl (β ++ s)).2) (splitNl_no_newline _)]
    have h := splitNl_append (β ++ s) ss.flatten
    rw [List.append_assoc] at h
    rw [h]
    rfl

/-- C10: over any sequence of `StreamCapture.write` calls starting from
an empty buffer, the lines put on the queue are exactly the
newline-terminated lines of the concatenated written text, each exactly
once and in write order; each `write` returns the length of its
argument; `flush` enqueues nothing; the characters after the last
newline stay in the internal buffer (which never contains a newline)
and are never enqueued, so a final unterminated line is never delivered. -/
theorem C10_stream_capture_write (ws : List Str) :
    (captureRun ⟨[]⟩ ws).2.1 = (splitNl ws.flatten).1
      ∧ ((captureRun ⟨[]⟩ ws).1).buffer = (splitNl ws.flatten).2
      ∧ (captureRun ⟨[]⟩ ws).2.2 = ws.map List.length
      ∧ (StreamCapture.flushCapture (captureRun ⟨[]⟩ ws).1).2 = []
      ∧ joinNlTerm (splitNl ws.flatten).1 ++ (splitNl ws.flatten).2 = ws.flatten
      ∧ '\n' ∉ (splitNl ws.flatten).2 := by
  have h := captureRun_spec ws [] (by simp)
  simp only [List.nil_append] at h
  rw [h]
  exact ⟨rfl, rfl, rfl, rfl, splitNl_reconstruct _, splitNl_no_newline _⟩

/- ------------------------------------------------------------------
   Frame decoder (`agent_ui.py`, `_stream_from_backend` lines 22-44)
   and event accumulator (`stream_agent_response` lines 85-165).
   ------------------------------------------------------------------ -/

/-- A decoded wire event as it comes out of the JSON payload: the tag is
still the raw string (the decoder does not validate it), the content
defaults to the empty string when the key is absent. -/
structure DEvent where
  type : Str
  content : Str
  deriving DecidableEq, Repr

/-- The frame-splitting loop of `_stream_from_backend` (lines 29-30):
repeatedly split the buffer at the first blank-line delimiter (two
consecutive newlines). Returns the complete frames in order and the
residual buffer. -/
def splitSegs : Str → List Str × Str
  | [] => ([], [])
  | [c] => ([], [c])
  | c :: d :: rest =>
    if c = '\n' && d = '\n' then
      ([] :: (splitSegs rest).1, (splitSegs rest).2)
    else
      match splitSegs (d :: rest) with
      | ([], b) => ([], c :: b)
      | (l :: ls, b) => ((c :: l) :: ls, b)

/-- Skip JSON whitespace. -/
def skipWS (s : Str) : Str := s.dropWhile isWS

/-- Expect a literal token at the head of the input. -/
def expectTok (pat s : Str) : Option Str :=
  if pat.isPrefixOf s then some (s.drop pat.length) else none

/-- JSON short escapes emitted by the encoder. -/
def unescapeChar (c : Char) : Option Char :=
  if c = '"' then some '"'
  else if c = '\\' then some '\\'
  else if c = '/' then some '/'
  else if c = 'n' then some '\n'
  else if c = 't' then some '\t'
  else if c = 'r' then some '\r'
  else if c = 'b' then some '\x08'
  else if c = 'f' then some '\x0c'
  else none

/-- Parse the body of a JSON string literal (the opening quote already
consumed): returns the decoded text and the input after the closing
quote, or `none` when the literal is unterminated or holds an
unsupported escape. -/
def parseStrLit : Str → Option (Str × Str)
  | [] => none
  | '"' :: rest => some ([], rest)
  | '\\' :: c :: rest =>
    match unescapeChar c, parseStrLit rest with
    | some e, some (s, r) => some (e :: s, r)
    | _, _ => none
  | c :: rest =>
    match parseStrLit rest with
    | some (s, r) => some (c :: s, r)
    | none => none

/-- Parse the JSON payload of one frame, i.e. the object shape produced
by the server encoder and consumed by `json.loads` + `event.get` in
`agent_ui.py`: an object with a string `type` and an optional string
`content` (absent content defaults to the empty string, matching
`event.get("content", "")`). Any input outside this wire-format grammar
yields `none`, which the decode loop treats exactly as `json.loads`
raising `JSONDecodeError` (resp. as an event without a recognised type):
the frame contributes nothing and the loop continues. -/
def parsePayload (s : Str) : Option DEvent := do
  let s1 ← expectTok ['\x7b'] (skipWS s)
  let s2 ← expectTok (str "\"type\"") (skipWS s1)
  let s3 ← expectTok [':'] (skipWS s2)
  let s4 ← expectTok ['"'] (skipWS s3)
  let p1 ← parseStrLit s4
  match skipWS p1.2 with
  | '\x7d' :: s7 => if (skipWS s7).isEmpty then pure ⟨p1.1, []⟩ else none
  | ',' :: s7 => do
    let s8 ← expectTok (str "\"content\"") (skipWS s7)
    let s9 ← expectTok [':'] (skipWS s8)
    let s10 ← expectTok ['"'] (skipWS s9)
    let p2 ← parseStrLit s10
    match skipWS p2.2 with
    | '\x7d' :: s12 => if (skipWS s12).isEmpty then pure ⟨p1.1, p2.1⟩ else none
    | _ => none
  | _ => none

/-- Per-frame handling of `_stream_from_backend` (lines 31-40): strip the
frame, require the `data: ` marker, and parse the JSON payload after it;
on any failure the frame is skipped. -/
def parseSeg (seg : Str) : Option DEvent :=
  if (strip seg).isEmpty then none
  else if (str "data: ").isPrefixOf (strip seg) then
    parsePayload ((strip seg).drop 6)
  else none

/-- The events decoded from a fully received buffer: every complete
delimited frame is parsed, malformed frames contribute nothing, and the
residue after the last delimiter is left in the buffer. -/
def stream_from_backend (buf : Str) : List DEvent :=
  (splitSegs buf).1.filterMap parseSeg

/-- Chunk-by-chunk decoding, mirroring the `async for chunk in
response.aiter_bytes()` loop: each chunk is appended to the carried
buffer, all complete frames are decoded, the residue is carried to the
next chunk. Returns all decoded events in order and the final residual
buffer. -/
def feedChunks (buf : Str) : List Str → List DEvent × Str
  | [] => ([], buf)
  | ch :: rest =>
    let d := splitSegs (buf ++ ch)
    let r := feedChunks d.2 rest
    (d.1.filterMap parseSeg ++ r.1, r.2)

/-- A well-formed `final_answer_end` frame as emitted by the server. -/
def frameGood : Str :=
  str "data: " ++ ['\x7b']
    ++ str "\"type\": \"final_answer_end\", \"content\": \"done\""
    ++ ['\x7d'] ++ str "\n\n"

/-- A frame whose payload is not valid JSON (an unterminated object). -/
def frameBad : Str := str "data: " ++ ['\x7b'] ++ str "oops" ++ str "\n\n"

lemma splitSegs_nn (rest : Str) :
    splitSegs ('\n' :: '\n' :: rest) =
      ([] :: (splitSegs rest).1, (splitSegs rest).2) := by
  simp [splitSegs]

lemma splitSegs_cons (c d : Char) (rest : Str) (h : ¬(c = '\n' ∧ d = '\n')) :
    splitSegs (c :: d :: rest) =
      (match splitSegs (d :: rest) with
       | ([], b) => ([], c :: b)
       | (l :: ls, b) => ((c :: l) :: ls, b)) := by
  have hb : ¬((c = '\n' && d = '\n') = true) := by
    simp only [Bool.and_eq_true, decide_eq_true_eq]
    exact h
  simp only [splitSegs, if_neg hb]

/-- Framing: a delimiter-free frame followed by the blank-line delimiter
is split off whole, leaving the rest of the buffer to be split
independently. The hypothesis also rules out the frame ending in a
newline that would fuse with the delimiter. -/
lemma splitSegs_frame :
    ∀ (bad rest : Str), hasSubstr (str "\n\n") (bad ++ ['\n']) = false →
      splitSegs (bad ++ '\n' :: '\n' :: rest) =
        (bad :: (splitSegs rest).1, (splitSegs rest).2) := by
  intro bad
  induction bad with
  | nil =>
    intro rest _
    simpa using splitSegs_nn rest
  | cons c bad' ih =>
    intro rest h
    rw [List.cons_append] at h
    have h' : ((str "\n\n").isPrefixOf (c :: (bad' ++ ['\n']))
        || hasSubstr (str "\n\n") (bad' ++ ['\n'])) = false := h
    rw [Bool.or_eq_false_iff] at h'
    obtain ⟨hp, ht⟩ := h'
    cases bad' with
    | nil =>
      have hc : c ≠ '\n' := by
        intro hceq
        subst hceq
        exact absurd hp (by decide)
      rw [List.cons_append, List.nil_append,
        splitSegs_cons c '\n' ('\n' :: rest) (fun hand => hc hand.1),
        splitSegs_nn]
    | cons d bad'' =>
      have hcd : ¬(c = '\n' ∧ d = '\n') := by
        rintro ⟨hc, hd⟩
        subst hc
        subst hd
        rw [List.cons_append] at hp
        have hpre : (str "\n\n").isPrefixOf
            ('\n' :: '\n' :: (bad'' ++ ['\n'])) = true := by
          rw [ List.isPrefixOf_iff_prefix]
          exact ⟨bad'' ++ ['\n'], rfl⟩
        rw [hpre] at hp
        exact absurd hp (by decide)
      rw [List.cons_append, List.cons_append, splitSegs_cons c d _ hcd]
      have hIH := ih rest ht
      rw [List.cons_append] at hIH
      rw [hIH]

/-- C7: a complete frame whose payload does not parse (in particular one
with invalid JSON) is skipped without terminating the decode loop — the
events of the stream are exactly those of the remaining buffer — and in
the concrete Scenario C an invalid-JSON frame followed by a valid
`final_answer_end` frame yields only the valid event. -/
theorem C7_malformed_frame_skipped :
    (∀ (bad rest : Str),
      hasSubstr (str "\n\n") (bad ++ ['\n']) = false →
      parseSeg bad = none →
      stream_from_backend (bad ++ str "\n\n" ++ rest) = stream_from_backend rest)
    ∧ stream_from_backend (frameBad ++ frameGood) =
        [⟨str "final_answer_end", str "done"⟩] := by
  constructor
  · intro bad rest h1 h2
    unfold stream_from_backend
    have hshape : bad ++ str "\n\n" ++ rest = bad ++ '\n' :: '\n' :: rest := by
      rw [List.append_assoc]
      rfl
    rw [hshape, splitSegs_frame bad rest h1]
    simp [h2]
  · decide

/-- Witness for C7 at a concrete input: the unterminated-JSON frame is
skipped and the events are those of the remaining buffer. -/
theorem C7_malformed_frame_skipped_witness :
    stream_from_backend
        ((str "data: " ++ ['\x7b'] ++ str "oops") ++ str "\n\n" ++ frameGood) =
      stream_from_backend frameGood :=
  C7_malformed_frame_skipped.1 (str "data: " ++ ['\x7b'] ++ str "oops")
    frameGood (by decide) (by decide)

/- ------------------------------------------------------------------
   Event accumulator: the per-event dispatch of `stream_agent_response`
   (`agent_ui.py` lines 93-148).
   ------------------------------------------------------------------ -/

/-- The accumulator state of `stream_agent_response`: `thoughts_log`,
`context_log` and `final_answer`. -/
structure AccState where
  thoughts_log : List Str
  context_log : List Str
  final_answer : Str
  deriving DecidableEq, Repr

/-- The accumulator's initial state (lines 78-80). -/
def initAcc : AccState := ⟨[], [], []⟩

/-- One step of the event dispatch of `stream_agent_response` (lines
93-148), as a reducer over decoded events: the branch is selected by the
raw tag string, unrecognised tags leave the state unchanged, and the
`stream_end` branch synthesizes a placeholder answer when none was set. -/
def stream_agent_response_step (a : AccState) (e : DEvent) : AccState :=
  if e.type = str "thought" then
    { a with thoughts_log := a.thoughts_log ++ [str "💭 Thought: " ++ e.content] }
  else if e.type = str "action" then
    { a with thoughts_log := a.thoughts_log ++ [str "⚡ Action: " ++ e.content] }
  else if e.type = str "action_input" then
    { a with thoughts_log := a.thoughts_log ++ [str "📥 Action Input: " ++ e.content] }
  else if e.type = str "observation" then
    { a with context_log := a.context_log ++ [str "🔍 Observation: " ++ e.content] }
  else if e.type = str "final_answer_end" then
    { a with final_answer :=
        if (strip e.content).isEmpty then str "No response generated." else e.content }
  else if e.type = str "error" then
    { a with
      thoughts_log := a.thoughts_log ++ [str "❌ Error: " ++ e.content],
      final_answer :=
        if a.final_answer.isEmpty then str "❌ Error: " ++ e.content
        else a.final_answer }
  else if e.type = str "stream_end" then
    { a with final_answer :=
        if a.final_answer.isEmpty then
          if !a.thoughts_log.isEmpty || !a.context_log.isEmpty then
            str "Agent completed processing. Check the thoughts and observations above."
          else str "Agent completed but no final answer was generated."
        else a.final_answer }
  else a

/-- The coalesced snapshot yielded after each applied event:
`(reasoning_text, final_answer, evidence_text)`, the logs joined with
blank lines (lines 99, 119, 145-146). -/
def snapshot (a : AccState) : Str × Str × Str :=
  (List.intercalate (str "\n\n") a.thoughts_log, a.final_answer,
   List.intercalate (str "\n\n") a.context_log)

/-- The sequence of snapshots exposed after each decoded event. -/
def accumTrace (evs : List DEvent) : List (Str × Str × Str) :=
  (evs.scanl stream_agent_response_step initAcc).map snapshot

/-- The seven tag strings of the wire protocol. -/
def knownType (e : DEvent) : Bool :=
  e.type = str "thought" || e.type = str "action" || e.type = str "action_input"
    || e.type = str "observation" || e.type = str "final_answer_end"
    || e.type = str "error" || e.type = str "stream_end"

/-- C8: decoding is deterministic — two independent decoder instances fed
the same bytes in the same chunking produce identical ordered event
sequences, and the accumulator produces identical snapshots after each
event. -/
theorem C8_decode_deterministic :
    ∀ (chunks chunks' : List Str), chunks = chunks' →
      feedChunks [] chunks = feedChunks [] chunks'
        ∧ accumTrace (feedChunks [] chunks).1 =
            accumTrace (feedChunks [] chunks').1 := by
  intro c1 c2 h
  subst h
  exact ⟨rfl, rfl⟩

/-- Witness for C8 at a concrete chunking. -/
theorem C8_decode_deterministic_witness :
    feedChunks [] [frameGood] = feedChunks [] [frameGood]
      ∧ accumTrace (feedChunks [] [frameGood]).1 =
          accumTrace (feedChunks [] [frameGood]).1 :=
  C8_decode_deterministic [frameGood] [frameGood] rfl

/-- The accumulator state has recorded something: a log entry or a final
answer. -/
def touched (a : AccState) : Prop :=
  a.thoughts_log ≠ [] ∨ a.context_log ≠ [] ∨ a.final_answer ≠ []

lemma step_unknown (a : AccState) (e : DEvent) (hk : knownType e = false) :
    stream_agent_response_step a e = a := by
  unfold knownType at hk
  simp only [Bool.or_eq_false_iff, decide_eq_false_iff_not] at hk
  obtain ⟨⟨⟨⟨⟨⟨h1, h2⟩, h3⟩, h4⟩, h5⟩, h6⟩, h7⟩ := hk
  unfold stream_agent_response_step
  rw [if_neg h1, if_neg h2, if_neg h3, if_neg h4, if_neg h5, if_neg h6,
    if_neg h7]

/-- Applying any event with a recognised tag leaves the accumulator
touched: the first five tags append a log entry, the last two set a
nonempty final answer (or keep an already nonempty one). -/
lemma touched_known (a : AccState) (e : DEvent) (hk : knownType e = true) :
    touched (stream_agent_response_step a e) := by
  unfold knownType at hk
  simp only [Bool.or_eq_true, decide_eq_true_eq] at hk
  unfold stream_agent_response_step
  rcases hk with ((((((h | h) | h) | h) | h) | h) | h) <;> rw [h]
  · rw [if_pos rfl]
    left
    simp
  · rw [if_neg (by decide), if_pos rfl]
    left
    simp
  · rw [if_neg (by decide), if_neg (by decide), if_pos rfl]
    left
    simp
  · rw [if_neg (by decide), if_neg (by decide), if_neg (by decide), if_pos rfl]
    right
    left
    simp
  · rw [if_neg (by decide), if_neg (by decide), if_neg (by decide),
      if_neg (by decide), if_pos rfl]
    right
    right
    dsimp only
    by_cases hc : (strip e.content).isEmpty = true
    · rw [if_pos hc]
      decide
    · rw [if_neg hc]
      intro hnil
      exact hc (by rw [hnil]; rfl)
  · rw [if_neg (by decide), if_neg (by decide), if_neg (by decide),
      if_neg (by decide), if_neg (by decide), if_pos rfl]
    left
    simp
  · rw [if_neg (by decide), if_neg (by decide), if_neg (by decide),
      if_neg (by decide), if_neg (by decide), if_neg (by decide), if_pos rfl]
    right
    right
    dsimp only
    by_cases hc : a.final_answer.isEmpty = true
    · rw [if_pos hc]
      by_cases hl : (!a.thoughts_log.isEmpty || !a.context_log.isEmpty) = true
      · rw [if_pos hl]
        decide
      · rw [if_neg hl]
        decide
    · rw [if_neg hc]
      rw [List.isEmpty_iff] at hc
      exact hc

lemma touched_fold :
    ∀ (evs : List DEvent) (a : AccState), touched a →
      touched (List.foldl stream_agent_response_step a evs) := by
  intro evs
  induction evs with
  | nil => exact fun a h => h
  | cons e evs' ih =>
    intro a h
    simp only [List.foldl_cons]
    apply ih
    cases hk : knownType e with
    | true => exact touched_known a e hk
    | false => rw [step_unknown a e hk]; exact h

lemma fold_touched_of_ne_nil (evs : List DEvent)
    (hk : ∀ e ∈ evs, knownType e = true) (hne : evs ≠ []) :
    touched (List.foldl stream_agent_response_step initAcc evs) := by
  cases evs with
  | nil => exact absurd rfl hne
  | cons e evs' =>
    simp only [List.foldl_cons]
    exact touched_fold evs' _
      (touched_known initAcc e (hk e (List.mem_cons_self e evs')))

lemma step_final_answer_end (a : AccState) (c : Str) :
    stream_agent_response_step a ⟨str "final_answer_end", c⟩ =
      { a with final_answer :=
          if (strip c).isEmpty then str "No response generated." else c } := by
  unfold stream_agent_response_step
  dsimp only
  rw [if_neg (by decide), if_neg (by decide), if_neg (by decide),
    if_neg (by decide), if_pos rfl]

lemma step_error (a : AccState) (c : Str) :
    stream_agent_response_step a ⟨str "error", c⟩ =
      { a with
        thoughts_log := a.thoughts_log ++ [str "❌ Error: " ++ c],
        final_answer :=
          if a.final_answer.isEmpty then str "❌ Error: " ++ c
          else a.final_answer } := by
  unfold stream_agent_response_step
  dsimp only
  rw [if_neg (by decide), if_neg (by decide), if_neg (by decide),
    if_neg (by decide), if_neg (by decide), if_pos rfl]

lemma step_stream_end (a : AccState) :
    stream_agent_response_step a ⟨str "stream_end", []⟩ =
      { a with final_answer :=
          if a.final_answer.isEmpty then
            if !a.thoughts_log.isEmpty || !a.context_log.isEmpty then
              str "Agent completed processing. Check the thoughts and observations above."
            else str "Agent completed but no final answer was generated."
          else a.final_answer } := by
  unfold stream_agent_response_step
  dsimp only
  rw [if_neg (by decide), if_neg (by decide), if_neg (by decide),
    if_neg (by decide), if_neg (by decide), if_neg (by decide), if_pos rfl]

/-- C9: the accumulator as a reducer over decoded events.
A `final_answer_end` event sets the final answer, with blank content
replaced by the `No response generated.` placeholder; an `error` event
appends to the reasoning log and seeds the final answer with the error
text only when none is set yet; and a `stream_end` event, when no final
answer was ever set, synthesizes a placeholder that differs between the
case where earlier events were seen and the case where none were. -/
theorem C9_accumulator_reducer :
    (∀ (a : AccState) (c : Str),
      (stream_agent_response_step a ⟨str "final_answer_end", c⟩).final_answer =
        if (strip c).isEmpty then str "No response generated." else c)
    ∧ (∀ (a : AccState) (c : Str),
      (stream_agent_response_step a ⟨str "error", c⟩).thoughts_log =
          a.thoughts_log ++ [str "❌ Error: " ++ c]
        ∧ (stream_agent_response_step a ⟨str "error", c⟩).final_answer =
            if a.final_answer.isEmpty then str "❌ Error: " ++ c
            else a.final_answer)
    ∧ (∀ evs : List DEvent, (∀ e ∈ evs, knownType e = true) →
        (List.foldl stream_agent_response_step initAcc evs).final_answer = [] →
        (stream_agent_response_step
            (List.foldl stream_agent_response_step initAcc evs)
            ⟨str "stream_end", []⟩).final_answer =
          if evs.isEmpty then str "Agent completed but no final answer was generated."
          else str "Agent completed processing. Check the thoughts and observations above.") := by
  refine ⟨?_, ?_, ?_⟩
  · intro a c
    rw [step_final_answer_end]
  · intro a c
    rw [step_error]
    exact ⟨rfl, rfl⟩
  · intro evs hk ha
    rw [step_stream_end]
    dsimp only
    have hae : (List.foldl stream_agent_response_step initAcc evs).final_answer.isEmpty = true := by
      rw [ha]
      rfl
    rw [if_pos hae]
    by_cases hne : evs = []
    · subst hne
      simp [initAcc]
    · have ht := fold_touched_of_ne_nil evs hk hne
      rcases ht with h | h | h
      · simp [List.isEmpty_iff, h, hne]
      · simp [List.isEmpty_iff, h, hne]
      · exact absurd ha h
/-- Witness for C9 at a concrete event sequence: after one `thought`
event and no final answer, `stream_end` synthesizes the
events-were-seen placeholder. -/
theorem C9_accumulator_reducer_witness :
    (stream_agent_response_step
        (List.foldl stream_agent_response_step initAcc
          [⟨str "thought", str "hi"⟩])
        ⟨str "stream_end", []⟩).final_answer =
      str "Agent completed processing. Check the thoughts and observations above." := by
  have h := C9_accumulator_reducer.2.2 [⟨str "thought", str "hi"⟩]
    (by decide) (by decide)
  simpa using h

end CogniCode
